import Mathlib

/-!
Verification development for the GitHub issue cost-estimation service.

The definitions below are shallow embeddings of the TypeScript sources:
 - the dual-window rate limiter (`checkRateLimit` and `getClientIP` from the
   rate-limit middleware),
 - the prompt builder (`generateSystemPrompt` from `prompts.ts`),
 - the single-issue estimator response handling (`estimateIssue` from `ai.ts`),
 - the batched estimator (`estimateIssuesBatch` from `ai.ts`), with the
   per-group concurrency of `Promise.all` made explicit through a completion
   schedule parameter,
 - CSV generation (`convertEstimationsToCSV` from `ai.ts`) and the summary
   statistics computed by the `estimate-repo-issues` route.

Timestamps are integer milliseconds (JavaScript `Date.now()`), and JavaScript
numbers are modelled as exact rationals (`ℚ`) or integers where the code only
ever manipulates them arithmetically.
-/

/-! ## Rate limiter (middleware `checkRateLimit`) -/

/-- One rate-limit window: `{count, resetTime}` as in the middleware store. -/
structure Window where
  count : Nat
  resetTime : Int
deriving DecidableEq, Repr

/-- Per-client entry of the store: a daily and a short-term window. -/
structure IPData where
  daily : Window
  shortTerm : Window
deriving DecidableEq, Repr

/-- The rate-limit store, keyed by client IP string (association list model of
the middleware's plain-object store). -/
abbrev RateLimitStore := List (String × IPData)

/-- Association-list lookup for the store. -/
def lookupStore : RateLimitStore → String → Option IPData
  | [], _ => none
  | (k, d) :: rest, ip => if k = ip then some d else lookupStore rest ip

/-- Association-list update (replace the entry if present, else append). -/
def updateStore : RateLimitStore → String → IPData → RateLimitStore
  | [], ip, d => [(ip, d)]
  | (k, d0) :: rest, ip, d => if k = ip then (ip, d) :: rest else (k, d0) :: updateStore rest ip d

/-- The slice of a web `Request` that the middleware reads: the
`x-forwarded-for` header. The `origin` field stands for the actual network
origin of the request, which the code never inspects. -/
structure Request where
  xForwardedFor : Option String
  origin : String
deriving DecidableEq, Repr

/-- `getClientIP`: the part of `x-forwarded-for` before the first comma
(`forwarded.split(',')[0]`), or `"unknown"` when the header is absent (or
empty, since the empty string is falsy in JavaScript). -/
def getClientIP (request : Request) : String :=
  match request.xForwardedFor with
  | none => "unknown"
  | some forwarded =>
      if forwarded = "" then "unknown"
      else String.mk (forwarded.data.takeWhile (fun c => c ≠ ','))

/-- Outcome of one admission check: allowed, or denied by the daily or the
short-term window with a `retryAfter` value in seconds. -/
inductive RateLimitResult where
  | allow
  | denyDaily (retryAfter : Int)
  | denyShort (retryAfter : Int)
deriving DecidableEq, Repr

/-- `Math.ceil((resetTime - now) / 1000)` on integer milliseconds. -/
def jsCeilSeconds (ms : Int) : Int := Int.fdiv (ms + 999) 1000

/-- Fresh pair of windows created on first sight of a key: both counters `0`,
`resetTime` set `24h` and `5min` ahead. -/
def freshIPData (now : Int) : IPData :=
  { daily := { count := 0, resetTime := now + 24 * 60 * 60 * 1000 }
    shortTerm := { count := 0, resetTime := now + 5 * 60 * 1000 } }

/-- Lazy window reset: any window whose `resetTime < now` is re-initialised
with `count = 0` and a fresh horizon, exactly as in the middleware. -/
def applyResets (d : IPData) (now : Int) : IPData :=
  let d1 := if d.daily.resetTime < now then
      { d with daily := { count := 0, resetTime := now + 24 * 60 * 60 * 1000 } }
    else d
  if d1.shortTerm.resetTime < now then
    { d1 with shortTerm := { count := 0, resetTime := now + 5 * 60 * 1000 } }
  else d1

/-- `checkRateLimit` from the middleware, as a pure state transformer: derive
the client key, initialise it on first sight, lazily reset expired windows,
deny on the daily window first (ceiling 100) then on the short-term window
(ceiling 10), otherwise increment both counters and allow. The returned store
reflects the mutations the middleware performs (initialisation and lazy resets
happen even on a denial; counters move only on an allow). -/
def checkRateLimit (store : RateLimitStore) (request : Request) (now : Int) :
    RateLimitResult × RateLimitStore :=
  let ip := getClientIP request
  let d0 := (lookupStore store ip).getD (freshIPData now)
  let d2 := applyResets d0 now
  if 100 ≤ d2.daily.count then
    (.denyDaily (jsCeilSeconds (d2.daily.resetTime - now)), updateStore store ip d2)
  else if 10 ≤ d2.shortTerm.count then
    (.denyShort (jsCeilSeconds (d2.shortTerm.resetTime - now)), updateStore store ip d2)
  else
    (.allow,
      updateStore store ip
        { daily := { count := d2.daily.count + 1, resetTime := d2.daily.resetTime }
          shortTerm := { count := d2.shortTerm.count + 1, resetTime := d2.shortTerm.resetTime } })

/-- Run `n` successive admission checks for the same request at the same
instant, returning the list of outcomes and the final store. -/
def admitSeq (request : Request) (now : Int) : Nat → RateLimitStore → List RateLimitResult × RateLimitStore
  | 0, s => ([], s)
  | n + 1, s =>
      let (r, s1) := checkRateLimit s request now
      let (rs, s2) := admitSeq request now n s1
      (r :: rs, s2)

/-- Well-formedness of the store: no counter exceeds its configured ceiling
(100 daily, 10 short-term). -/
def StoreWF (store : RateLimitStore) : Prop :=
  ∀ e ∈ store, e.2.daily.count ≤ 100 ∧ e.2.shortTerm.count ≤ 10

instance (store : RateLimitStore) : Decidable (StoreWF store) := by
  unfold StoreWF; infer_instance

theorem lookupStore_updateStore_self (s : RateLimitStore) (ip : String) (d : IPData) :
    lookupStore (updateStore s ip d) ip = some d := by
  induction s with
  | nil => simp [updateStore, lookupStore]
  | cons e rest ih =>
      obtain ⟨k, d0⟩ := e
      by_cases hk : k = ip <;> simp [updateStore, lookupStore, hk, ih]

theorem mem_updateStore (s : RateLimitStore) (ip : String) (d : IPData) (e : String × IPData)
    (he : e ∈ updateStore s ip d) : e = (ip, d) ∨ e ∈ s := by
  induction s with
  | nil => simpa [updateStore] using he
  | cons e0 rest ih =>
      obtain ⟨k, d0⟩ := e0
      by_cases hk : k = ip
      · simp [updateStore, hk] at he
        rcases he with h | h
        · exact Or.inl (by simp [h])
        · exact Or.inr (List.mem_cons_of_mem _ h)
      · simp [updateStore, hk] at he
        rcases he with h | h
        · exact Or.inr (by simp [h])
        · rcases ih h with h1 | h1
          · exact Or.inl h1
          · exact Or.inr (List.mem_cons_of_mem _ h1)

theorem applyResets_counts (d : IPData) (now : Int) :
    ((applyResets d now).daily.count = d.daily.count ∨ (applyResets d now).daily.count = 0)
    ∧ ((applyResets d now).shortTerm.count = d.shortTerm.count ∨ (applyResets d now).shortTerm.count = 0) := by
  simp only [applyResets]
  split <;> split <;> simp

theorem lookupStore_mem (s : RateLimitStore) (ip : String) (d : IPData)
    (h : lookupStore s ip = some d) : (ip, d) ∈ s := by
  induction s with
  | nil => simp [lookupStore] at h
  | cons e rest ih =>
      obtain ⟨k, d0⟩ := e
      by_cases hk : k = ip
      · simp [lookupStore, hk] at h
        subst hk h
        exact List.mem_cons_self _ _
      · simp [lookupStore, hk] at h
        exact List.mem_cons_of_mem _ (ih h)

theorem applyResets_shortTerm_of_ge (d : IPData) (now : Int) (h : now ≤ d.shortTerm.resetTime) :
    (applyResets d now).shortTerm = d.shortTerm := by
  simp only [applyResets]
  split <;> split <;> simp_all <;> omega

/-- C4: window counters never exceed their ceilings (100 daily, 10
short-term) without the exceeding call being rejected first; a short-term
window at its ceiling within its horizon denies the next admit with kind
short-term; and both counters increment only on admitted calls, never on
denials (denials leave the lazily-reset counters unchanged). -/
theorem spec_c4_window_invariants (store : RateLimitStore) (request : Request) (now : Int)
    (hwf : StoreWF store) :
    StoreWF (checkRateLimit store request now).snd
    ∧ (∀ d, lookupStore store (getClientIP request) = some d →
        10 ≤ d.shortTerm.count → now ≤ d.shortTerm.resetTime → d.daily.count < 100 →
        (checkRateLimit store request now).fst
          = .denyShort (jsCeilSeconds (d.shortTerm.resetTime - now)))
    ∧ (((checkRateLimit store request now).fst = .allow →
          lookupStore (checkRateLimit store request now).snd (getClientIP request)
            = some { daily := { count := (applyResets ((lookupStore store (getClientIP request)).getD (freshIPData now)) now).daily.count + 1,
                                resetTime := (applyResets ((lookupStore store (getClientIP request)).getD (freshIPData now)) now).daily.resetTime }
                     shortTerm := { count := (applyResets ((lookupStore store (getClientIP request)).getD (freshIPData now)) now).shortTerm.count + 1,
                                    resetTime := (applyResets ((lookupStore store (getClientIP request)).getD (freshIPData now)) now).shortTerm.resetTime } })
       ∧ ((checkRateLimit store request now).fst ≠ .allow →
          lookupStore (checkRateLimit store request now).snd (getClientIP request)
            = some (applyResets ((lookupStore store (getClientIP request)).getD (freshIPData now)) now))) := by
  have hd0bound : ∀ d0, (lookupStore store (getClientIP request)).getD (freshIPData now) = d0 →
      d0.daily.count ≤ 100 ∧ d0.shortTerm.count ≤ 10 := by
    intro d0 h0
    cases hl : lookupStore store (getClientIP request) with
    | none => rw [hl] at h0; simp [freshIPData] at h0; simp [← h0, freshIPData]
    | some d =>
        rw [hl] at h0; simp at h0
        subst h0
        exact hwf _ (lookupStore_mem _ _ _ hl)
  set ip := getClientIP request with hip
  set d0 := (lookupStore store ip).getD (freshIPData now) with hd0def
  set d2 := applyResets d0 now with hd2def
  have hb0 := hd0bound d0 rfl
  have hdb : d2.daily.count ≤ 100 := by
    rcases (applyResets_counts d0 now).1 with h | h <;> rw [hd2def, h] <;> omega
  have hsb : d2.shortTerm.count ≤ 10 := by
    rcases (applyResets_counts d0 now).2 with h | h <;> rw [hd2def, h] <;> omega
  by_cases hdaily : 100 ≤ d2.daily.count
  · have hck : checkRateLimit store request now
        = (.denyDaily (jsCeilSeconds (d2.daily.resetTime - now)), updateStore store ip d2) := by
      simp [checkRateLimit, ← hip, ← hd0def, ← hd2def, hdaily]
    refine ⟨?_, ?_, ?_, ?_⟩
    · rw [hck]
      intro e he
      rcases mem_updateStore _ _ _ _ he with rfl | hmem
      · exact ⟨hdb, hsb⟩
      · exact hwf _ hmem
    · intro d hl hs hns hd
      exfalso
      have hd0d : d0 = d := by rw [hd0def, hl]; rfl
      rcases (applyResets_counts d0 now).1 with h | h
      · rw [← hd2def, hd0d] at h; omega
      · rw [← hd2def] at h; omega
    · rw [hck]; intro h; simp at h
    · rw [hck]; intro _; exact lookupStore_updateStore_self _ _ _
  · by_cases hshort : 10 ≤ d2.shortTerm.count
    · have hck : checkRateLimit store request now
          = (.denyShort (jsCeilSeconds (d2.shortTerm.resetTime - now)), updateStore store ip d2) := by
        simp [checkRateLimit, ← hip, ← hd0def, ← hd2def, hdaily, hshort]
      refine ⟨?_, ?_, ?_, ?_⟩
      · rw [hck]
        intro e he
        rcases mem_updateStore _ _ _ _ he with rfl | hmem
        · exact ⟨hdb, hsb⟩
        · exact hwf _ hmem
      · intro d hl hs hns hd
        have hd0d : d0 = d := by rw [hd0def, hl]; rfl
        rw [hck]
        simp
        rw [hd2def, hd0d, applyResets_shortTerm_of_ge d now hns]
      · rw [hck]; intro h; simp at h
      · rw [hck]; intro _; exact lookupStore_updateStore_self _ _ _
    · have hck : checkRateLimit store request now
          = (.allow, updateStore store ip
              { daily := { count := d2.daily.count + 1, resetTime := d2.daily.resetTime }
                shortTerm := { count := d2.shortTerm.count + 1, resetTime := d2.shortTerm.resetTime } }) := by
        simp [checkRateLimit, ← hip, ← hd0def, ← hd2def, hdaily, hshort]
      refine ⟨?_, ?_, ?_, ?_⟩
      · rw [hck]
        intro e he
        rcases mem_updateStore _ _ _ _ he with rfl | hmem
        · constructor <;> simp <;> omega
        · exact hwf _ hmem
      · intro d hl hs hns hd
        exfalso
        have hd0d : d0 = d := by rw [hd0def, hl]; rfl
        have := applyResets_shortTerm_of_ge d now hns
        rw [hd0d] at hd2def
        rw [hd2def] at hshort
        rw [this] at hshort
        omega
      · rw [hck]; intro _; exact lookupStore_updateStore_self _ _ _
      · rw [hck]; intro h; simp at h

def c7Request : Request := { xForwardedFor := some "203.0.113.7", origin := "client-a" }

/-- Canonical request carrying no `x-forwarded-for` header. -/
def unknownRequest : Request := { xForwardedFor := none, origin := "" }

theorem checkRateLimit_congr (s : RateLimitStore) (r r' : Request) (now : Int)
    (h : getClientIP r = getClientIP r') :
    checkRateLimit s r now = checkRateLimit s r' now := by
  simp only [checkRateLimit, h]

theorem admitSeq_congr (r r' : Request) (now : Int) (n : Nat) (s : RateLimitStore)
    (h : getClientIP r = getClientIP r') :
    admitSeq r now n s = admitSeq r' now n s := by
  induction n generalizing s with
  | zero => rfl
  | succ n ih => simp only [admitSeq, checkRateLimit_congr s r r' now h, ih]

/-- C7: from an empty store, 10 admits for one key at t=0 all succeed, the
11th at t=0 is denied short-term with retryAfter exactly 300 seconds, and an
admit at t=301s succeeds and leaves the short window count at 1, not 0. -/
theorem spec_c7_short_window_scenario :
    (admitSeq c7Request 0 10 []).fst = List.replicate 10 .allow
    ∧ (checkRateLimit (admitSeq c7Request 0 10 []).snd c7Request 0).fst = .denyShort 300
    ∧ (checkRateLimit (checkRateLimit (admitSeq c7Request 0 10 []).snd c7Request 0).snd
        c7Request 301000).fst = .allow
    ∧ (lookupStore (checkRateLimit (checkRateLimit (admitSeq c7Request 0 10 []).snd c7Request 0).snd
        c7Request 301000).snd "203.0.113.7").map (fun d => d.shortTerm.count) = some 1 := by
  decide

/-- C10: every request without an x-forwarded-for header is keyed as
"unknown" regardless of its network origin, so all such requests share one
pair of rate-limit windows: ten no-header admits from one origin exhaust the
short-term quota for a no-header request from a different origin. -/
theorem spec_c10_shared_unknown_key (r1 r2 : Request)
    (h1 : r1.xForwardedFor = none) (h2 : r2.xForwardedFor = none) :
    getClientIP r1 = "unknown"
    ∧ getClientIP r2 = "unknown"
    ∧ (∃ ra, (checkRateLimit (admitSeq r1 0 10 []).snd r2 0).fst = .denyShort ra) := by
  have g1 : getClientIP r1 = "unknown" := by simp [getClientIP, h1]
  have g2 : getClientIP r2 = "unknown" := by simp [getClientIP, h2]
  have hu : getClientIP unknownRequest = "unknown" := by simp [getClientIP, unknownRequest]
  have e1 : ∀ s, checkRateLimit s r1 0 = checkRateLimit s unknownRequest 0 := fun s =>
    checkRateLimit_congr s r1 unknownRequest 0 (by rw [g1, hu])
  have e2 : ∀ s, checkRateLimit s r2 0 = checkRateLimit s unknownRequest 0 := fun s =>
    checkRateLimit_congr s r2 unknownRequest 0 (by rw [g2, hu])
  refine ⟨g1, g2, ?_⟩
  rw [e2, admitSeq_congr r1 unknownRequest 0 10 [] (by rw [g1, hu])]
  exact ⟨300, by decide⟩

def c4Store : RateLimitStore := [("9.9.9.9", ⟨⟨5, 1000⟩, ⟨10, 2000⟩⟩)]

def c4Request : Request := { xForwardedFor := some "9.9.9.9", origin := "client-b" }

theorem spec_c4_window_invariants_witness :
    StoreWF c4Store
    ∧ (StoreWF (checkRateLimit c4Store c4Request 500).snd
    ∧ (∀ d, lookupStore c4Store (getClientIP c4Request) = some d →
        10 ≤ d.shortTerm.count → (500 : Int) ≤ d.shortTerm.resetTime → d.daily.count < 100 →
        (checkRateLimit c4Store c4Request 500).fst
          = .denyShort (jsCeilSeconds (d.shortTerm.resetTime - 500)))
    ∧ (((checkRateLimit c4Store c4Request 500).fst = .allow →
          lookupStore (checkRateLimit c4Store c4Request 500).snd (getClientIP c4Request)
            = some { daily := { count := (applyResets ((lookupStore c4Store (getClientIP c4Request)).getD (freshIPData 500)) 500).daily.count + 1,
                                resetTime := (applyResets ((lookupStore c4Store (getClientIP c4Request)).getD (freshIPData 500)) 500).daily.resetTime }
                     shortTerm := { count := (applyResets ((lookupStore c4Store (getClientIP c4Request)).getD (freshIPData 500)) 500).shortTerm.count + 1,
                                    resetTime := (applyResets ((lookupStore c4Store (getClientIP c4Request)).getD (freshIPData 500)) 500).shortTerm.resetTime } })
       ∧ ((checkRateLimit c4Store c4Request 500).fst ≠ .allow →
          lookupStore (checkRateLimit c4Store c4Request 500).snd (getClientIP c4Request)
            = some (applyResets ((lookupStore c4Store (getClientIP c4Request)).getD (freshIPData 500)) 500)))) :=
  ⟨by decide, spec_c4_window_invariants c4Store c4Request 500 (by decide)⟩

def c10RequestA : Request := { xForwardedFor := none, origin := "network-origin-a" }

def c10RequestB : Request := { xForwardedFor := none, origin := "network-origin-b" }

theorem spec_c10_shared_unknown_key_witness :
    c10RequestA.xForwardedFor = none
    ∧ c10RequestB.xForwardedFor = none
    ∧ (getClientIP c10RequestA = "unknown"
       ∧ getClientIP c10RequestB = "unknown"
       ∧ (∃ ra, (checkRateLimit (admitSeq c10RequestA 0 10 []).snd c10RequestB 0).fst
            = .denyShort ra)) :=
  ⟨rfl, rfl, spec_c10_shared_unknown_key c10RequestA c10RequestB rfl rfl⟩

/-! ## Estimation parameters and the system prompt (`prompts.ts`) -/

/-- A per-tier budget range `{min, max}`. -/
structure ComplexityBudgetRange where
  min : Int
  max : Int
deriving DecidableEq, Repr

/-- The optional per-tier budget overrides of `EstimationParams`. -/
structure ComplexityBudgets where
  low : Option ComplexityBudgetRange
  medium : Option ComplexityBudgetRange
  high : Option ComplexityBudgetRange
  critical : Option ComplexityBudgetRange
deriving DecidableEq, Repr

/-- `EstimationParams` from `ai.ts`: overall budget bounds, model name, and
optional per-tier budget ranges. -/
structure EstimationParams where
  minBudget : Int
  maxBudget : Int
  model : String
  complexityBudgets : Option ComplexityBudgets
deriving DecidableEq, Repr

/-- `generateSystemPrompt` from `prompts.ts`: the fixed-format instruction
given to the inference call. The template interpolates only
`params.minBudget` and `params.maxBudget`. -/
def generateSystemPrompt (params : EstimationParams) : String :=
  "You are an expert software engineering project manager specializing in cost estimation for software development tasks.
Begin with a concise checklist (3-7 bullets) of what you will do; keep items conceptual, not implementation-level.

Your task is to analyze GitHub issues and estimate their complexity and development cost based on these factors:
- Issue description and technical requirements
- Number and content of comments
- Labels (e.g., bug, feature, enhancement, documentation)
- Technical keywords and scope indicators
- Repository context (languages used, repository size, test coverage)

**Complexity Categories**

- **Low**: Simple bug fixes, minor text changes, documentation updates, configuration tweaks
- **Medium**: Feature enhancements, moderate refactoring, standard API integrations, UI improvements
- **High**: New major features, complex integrations, architectural changes, performance optimization
- **Complex**: Large-scale refactoring, security overhauls, complete system redesigns, complex distributed systems

**Inputs**
- " ++ toString params.minBudget ++ ": (number): Minimum budget in US Dollar for cost estimation (required; must be less than or equal to maxBudget)
- " ++ toString params.maxBudget ++ ": (number): Maximum budget in US Dollar for cost estimation (required; must be greater than or equal to minBudget)

If any required GitHub issue data is missing (such as absent labels, empty repository context,
or incomplete issue description), include this in your reasoning, estimate based on the available data,
and state any limitations.

After forming your estimation, check that all required fields are present
and JSON keys are ordered as follows: \"complexity\", \"estimatedCost\", \"reasoning\".

Respond only in valid JSON format as specified below.

## Output Format
\x7b
\"complexity\": \"low\" | \"medium\" | \"high\" | \"critical\",
\"estimatedCost\": number, // US Dollar
\"reasoning\": \"Brief explanation of the estimation (2-3 sentences)\"
\x7d

If there is an error, respond with:
\x7b
\"error\": \"Explanation of the error.\"
\x7d


"

/-- Does `pat` occur at the start of `cs`? -/
def seqStartsWith : List Char → List Char → Bool
  | [], _ => true
  | _ :: _, [] => false
  | p :: ps, c :: cs => p == c && seqStartsWith ps cs

/-- Does `pat` occur anywhere in `cs`? -/
def seqContains (pat : List Char) : List Char → Bool
  | [] => seqStartsWith pat []
  | c :: cs => seqStartsWith pat (c :: cs) || seqContains pat cs

/-- Substring test on strings (used to ask whether a numeric boundary is
mentioned anywhere in a prompt). -/
def hasSubstr (s pat : String) : Bool := seqContains pat.data s.data

/-- Modelled from the spec: the derivation of four contiguous per-tier budget
sub-ranges from `[minBudget, maxBudget]` with cumulative proportional
boundaries at 0%, 25%, 60%, 85%, 100% of the overall range, rounded to the
nearest integer. No derivation of per-tier sub-ranges exists anywhere in the
source; this definition exists only to state what the spec requires. -/
def deriveComplexityBudgets (minBudget maxBudget : Int) :
    ComplexityBudgetRange × ComplexityBudgetRange × ComplexityBudgetRange × ComplexityBudgetRange :=
  let span : ℚ := (maxBudget : ℚ) - (minBudget : ℚ)
  let b1 := minBudget + round (25 * span / 100)
  let b2 := minBudget + round (60 * span / 100)
  let b3 := minBudget + round (85 * span / 100)
  (⟨minBudget, b1⟩, ⟨b1, b2⟩, ⟨b2, b3⟩, ⟨b3, maxBudget⟩)

def c1Params : EstimationParams :=
  { minBudget := 100, maxBudget := 1000, model := "gpt-5-nano", complexityBudgets := none }

set_option maxRecDepth 8192 in
/-- C1: evaluation of the code against the claim. The spec-modelled
derivation does give low=[100,325], medium=[325,640], high=[640,865],
critical=[865,1000] for [100,1000]; but the actual `generateSystemPrompt` is
invariant under `complexityBudgets` and mentions none of the derived
boundaries 325/640/865 — no per-tier sub-ranges are derived or included in
the instruction given to the inference call. -/
theorem spec_c1_prompt_lacks_derived_tier_ranges :
    deriveComplexityBudgets 100 1000
      = (⟨100, 325⟩, ⟨325, 640⟩, ⟨640, 865⟩, ⟨865, 1000⟩)
    ∧ (∀ cb, generateSystemPrompt { c1Params with complexityBudgets := cb }
        = generateSystemPrompt c1Params)
    ∧ hasSubstr (generateSystemPrompt c1Params) "325" = false
    ∧ hasSubstr (generateSystemPrompt c1Params) "640" = false
    ∧ hasSubstr (generateSystemPrompt c1Params) "865" = false := by
  refine ⟨?_, fun cb => rfl, ?_, ?_, ?_⟩
  · norm_num [deriveComplexityBudgets]
  · decide
  · decide
  · decide


/-! ## Issue data model (`github.ts`) and single-issue estimation (`ai.ts`) -/

/-- One issue comment, as produced by the comment-fetching enrichment. -/
structure IssueComment where
  id : Int
  body : String
  createdAt : String
  author : String
deriving DecidableEq, Repr

/-- `EnrichedIssue` from `github.ts`. -/
structure EnrichedIssue where
  number : Int
  title : String
  body : Option String
  labels : List String
  state : String
  createdAt : String
  updatedAt : String
  comments : List IssueComment
  commentCount : Int
  url : String
  author : String
deriving DecidableEq, Repr

/-- `IssueEstimation` from `ai.ts`. The `complexity` field is typed as one of
four string literals in TypeScript, but that type is erased at runtime and the
code stores whatever string the inference response carried, so it is a plain
`String` here. Costs are exact rationals standing for JavaScript numbers. -/
structure IssueEstimation where
  issueNumber : Int
  title : String
  complexity : String
  estimatedCost : ℚ
  reasoning : String
  labels : List String
  url : String
deriving DecidableEq, Repr

/-- Outcome of the inference call as observed by `estimateIssue`, with the
external `JSON.parse` builtin abstracted by its result: the completion content
was absent/empty (falsy), the content failed to parse as JSON (with the parse
error's message), or it parsed to an object whose `complexity`,
`estimatedCost` and `reasoning` members carry the given values. -/
inductive InferenceResponse where
  | empty
  | malformed (errMsg : String)
  | parsed (complexity : String) (estimatedCost : ℚ) (reasoning : String)
deriving DecidableEq, Repr

/-- `estimateIssue` from `ai.ts`, response handling only (the request build
and logging have no effect on the result): an absent content or a JSON parse
failure is thrown and re-wrapped as
`Failed to estimate issue #N: <message>`; a parsed response is copied into the
result without any validation of the tier or the cost. -/
def estimateIssue (issue : EnrichedIssue) (response : InferenceResponse) :
    Except String IssueEstimation :=
  match response with
  | .empty =>
      .error ("Failed to estimate issue #" ++ toString issue.number ++ ": "
        ++ "Empty response from OpenAI")
  | .malformed errMsg =>
      .error ("Failed to estimate issue #" ++ toString issue.number ++ ": " ++ errMsg)
  | .parsed complexity estimatedCost reasoning =>
      .ok { issueNumber := issue.number, title := issue.title, complexity := complexity
            estimatedCost := estimatedCost, reasoning := reasoning
            labels := issue.labels, url := issue.url }

def c2Issue : EnrichedIssue :=
  { number := 7, title := "Fix login crash", body := some "crashes on login"
    labels := ["bug"], state := "open", createdAt := "2024-01-01", updatedAt := "2024-01-02"
    comments := [], commentCount := 0
    url := "https://github.com/acme/app/issues/7", author := "alice" }

/-- C2 counterexample: the claim is false on the code — a parsed response whose tier is not one of
the four recognized values is returned as a successful result, tier passed
through verbatim, instead of failing. -/
theorem spec_c2_unrecognized_tier_returned_not_rejected :
    estimateIssue c2Issue (.parsed "banana" 5 "made-up tier")
      = .ok { issueNumber := 7, title := "Fix login crash", complexity := "banana"
              estimatedCost := 5, reasoning := "made-up tier"
              labels := ["bug"], url := "https://github.com/acme/app/issues/7" } := by
  rfl

/-- C2 (amended): empty or unparseable responses fail with an error naming
the offending issue; a response that parses to an object is returned as a
result with `complexity` and `estimatedCost` passed through unvalidated. -/
theorem spec_c2_parse_failure_named_error_no_tier_validation
    (issue : EnrichedIssue) (response : InferenceResponse) :
    ((response = .empty ∨ ∃ m, response = .malformed m) →
      ∃ s, estimateIssue issue response
        = .error ("Failed to estimate issue #" ++ toString issue.number ++ ": " ++ s))
    ∧ (∀ c k r, response = .parsed c k r →
        estimateIssue issue response
          = .ok { issueNumber := issue.number, title := issue.title, complexity := c
                  estimatedCost := k, reasoning := r
                  labels := issue.labels, url := issue.url }) := by
  constructor
  · rintro (rfl | ⟨m, rfl⟩)
    · exact ⟨"Empty response from OpenAI", rfl⟩
    · exact ⟨m, rfl⟩
  · rintro c k r rfl
    rfl

/-! ## Batched estimation (`estimateIssuesBatch` from `ai.ts`)

`Promise.all` starts every call of a group immediately (in batch order) and
re-assembles the settled values by original position; the order in which the
promises settle is captured by an explicit completion schedule. The runner
records an event trace: one `call` event per estimation started (global issue
index) and one `progressReport` event per completed group, mirroring the
`onProgress(Math.min(i + batchSize, issues.length), issues.length)` callback. -/

/-- Store a settled value at position `j` of the results buffer. -/
def setAt : List (Option IssueEstimation) → Nat → IssueEstimation → List (Option IssueEstimation)
  | [], _, _ => []
  | _ :: tl, 0, b => some b :: tl
  | hd :: tl, n + 1, b => hd :: setAt tl n b

/-- Settle the promises of one group in schedule order: each scheduled index
resolves its issue's estimation into its original slot; the first rejection
(in settlement order) rejects the whole group, as `Promise.all` does. -/
def promiseAllFill (est : EnrichedIssue → Except String IssueEstimation)
    (batch : List EnrichedIssue) :
    List Nat → List (Option IssueEstimation) → Except String (List (Option IssueEstimation))
  | [], acc => .ok acc
  | j :: rest, acc =>
      match batch[j]? with
      | none => promiseAllFill est batch rest acc
      | some issue =>
          match est issue with
          | .error e => .error e
          | .ok r => promiseAllFill est batch rest (setAt acc j r)

/-- `Promise.all(batch.map(estimateIssue))` under completion schedule `sched`:
positional re-assembly of the group's results. -/
def promiseAll (est : EnrichedIssue → Except String IssueEstimation)
    (batch : List EnrichedIssue) (sched : List Nat) : Except String (List IssueEstimation) :=
  match promiseAllFill est batch sched (List.replicate batch.length none) with
  | .error e => .error e
  | .ok slots => .ok slots.reduceOption

/-- Observable events of a batch run: the start of one issue's estimation
(by global index) and the per-group progress callback. -/
inductive BatchEvent where
  | call (idx : Nat)
  | progressReport (current : Nat) (total : Nat)
deriving DecidableEq, Repr

/-- The group loop of `estimateIssuesBatch`: take the next 5 issues, start
all of them (call events), settle them under the group's schedule, abort on a
rejection, otherwise append the group's results in original order, fire the
progress callback with `(min (i+5) n, n)` and continue. `scheds` gives the
completion schedule of the group starting at offset `i`. -/
def estimateIssuesBatchAux (est : EnrichedIssue → Except String IssueEstimation)
    (scheds : Nat → List Nat) (n : Nat) :
    List EnrichedIssue → Nat → Except String (List IssueEstimation) × List BatchEvent
  | [], _ => (.ok [], [])
  | issue :: tl, i =>
      let batch := (issue :: tl).take 5
      let callEvents := (List.range batch.length).map (fun j => BatchEvent.call (i + j))
      match promiseAll est batch (scheds i) with
      | .error e => (.error e, callEvents)
      | .ok rs =>
          let next := estimateIssuesBatchAux est scheds n ((issue :: tl).drop 5) (i + 5)
          (match next.fst with
           | .error e => .error e
           | .ok more => .ok (rs ++ more),
           callEvents ++ BatchEvent.progressReport (min (i + 5) n) n :: next.snd)
termination_by rest => rest.length
decreasing_by simp [List.length_drop]; omega

/-- `estimateIssuesBatch` from `ai.ts` (batch size 5), with an explicit
completion schedule per group, returning the result sequence (or the
propagated failure) together with the event trace. -/
def estimateIssuesBatch (est : EnrichedIssue → Except String IssueEstimation)
    (scheds : Nat → List Nat) (issues : List EnrichedIssue) :
    Except String (List IssueEstimation) × List BatchEvent :=
  estimateIssuesBatchAux est scheds issues.length issues 0

/-- The arguments of the progress callback, in emission order. -/
def progressEvents (events : List BatchEvent) : List (Nat × Nat) :=
  events.filterMap (fun ev =>
    match ev with
    | .progressReport c t => some (c, t)
    | _ => none)


theorem setAt_length (l : List (Option IssueEstimation)) (j : Nat) (b : IssueEstimation) :
    (setAt l j b).length = l.length := by
  induction l generalizing j with
  | nil => rfl
  | cons hd tl ih =>
      cases j with
      | zero => rfl
      | succ j => simp [setAt, ih]

theorem setAt_getElem_self (l : List (Option IssueEstimation)) (j : Nat) (b : IssueEstimation)
    (h : j < l.length) : (setAt l j b)[j]? = some (some b) := by
  induction l generalizing j with
  | nil => simp at h
  | cons hd tl ih =>
      cases j with
      | zero => simp [setAt]
      | succ j =>
          simp only [setAt, List.getElem?_cons_succ]
          exact ih _ (by simpa using h)

theorem setAt_getElem_ne (l : List (Option IssueEstimation)) (j k : Nat) (b : IssueEstimation)
    (h : k ≠ j) : (setAt l j b)[k]? = l[k]? := by
  induction l generalizing j k with
  | nil => rfl
  | cons hd tl ih =>
      cases j with
      | zero =>
          cases k with
          | zero => exact absurd rfl h
          | succ k => simp [setAt]
      | succ j =>
          cases k with
          | zero => simp [setAt]
          | succ k =>
              simp only [setAt, List.getElem?_cons_succ]
              exact ih _ _ (fun hh => h (by rw [hh]))

/-- The pure effect of settling an all-successful group under a schedule. -/
def fillPure (batch : List EnrichedIssue) (g : EnrichedIssue → IssueEstimation) :
    List Nat → List (Option IssueEstimation) → List (Option IssueEstimation)
  | [], acc => acc
  | j :: rest, acc =>
      match batch[j]? with
      | none => fillPure batch g rest acc
      | some a => fillPure batch g rest (setAt acc j (g a))

theorem promiseAllFill_ok (est : EnrichedIssue → Except String IssueEstimation)
    (batch : List EnrichedIssue) (g : EnrichedIssue → IssueEstimation)
    (hok : ∀ a ∈ batch, est a = .ok (g a)) :
    ∀ sched acc, promiseAllFill est batch sched acc = .ok (fillPure batch g sched acc) := by
  intro sched
  induction sched with
  | nil => intro acc; rfl
  | cons j rest ih =>
      intro acc
      cases hj : batch[j]? with
      | none => simp [promiseAllFill, fillPure, hj, ih]
      | some a =>
          have ha := hok a (List.getElem?_mem hj)
          simp [promiseAllFill, fillPure, hj, ha, ih]

theorem fillPure_getElem_not_mem (batch : List EnrichedIssue) (g : EnrichedIssue → IssueEstimation) :
    ∀ (sched : List Nat) (acc : List (Option IssueEstimation)) (k : Nat), k ∉ sched →
      (fillPure batch g sched acc)[k]? = acc[k]? := by
  intro sched
  induction sched with
  | nil => intro acc k _; rfl
  | cons j rest ih =>
      intro acc k hk
      have hkj : k ≠ j := fun h => hk (h ▸ List.mem_cons_self _ _)
      have hkr : k ∉ rest := fun h => hk (List.mem_cons_of_mem _ h)
      cases hj : batch[j]? with
      | none => simp only [fillPure, hj]; exact ih acc k hkr
      | some a =>
          simp only [fillPure, hj]
          rw [ih _ k hkr, setAt_getElem_ne _ _ _ _ hkj]

theorem fillPure_getElem_mem (batch : List EnrichedIssue) (g : EnrichedIssue → IssueEstimation) :
    ∀ (sched : List Nat) (acc : List (Option IssueEstimation)) (k : Nat) (a : EnrichedIssue),
      acc.length = batch.length → k ∈ sched → batch[k]? = some a →
      (fillPure batch g sched acc)[k]? = some (some (g a)) := by
  intro sched
  induction sched with
  | nil => intro acc k a _ hk _; simp at hk
  | cons j rest ih =>
      intro acc k a hlen hk ha
      cases hj : batch[j]? with
      | none =>
          simp only [fillPure, hj]
          rcases List.mem_cons.mp hk with rfl | hkr
          · rw [ha] at hj; exact Option.noConfusion hj
          · exact ih acc k a hlen hkr ha
      | some b =>
          simp only [fillPure, hj]
          by_cases hkr : k ∈ rest
          · exact ih _ k a (by rw [setAt_length, hlen]) hkr ha
          · have hkj : k = j := by
              rcases List.mem_cons.mp hk with h | h
              · exact h
              · exact absurd h hkr
            subst hkj
            have hab : b = a := by rw [hj] at ha; exact Option.some.inj ha
            subst hab
            rw [fillPure_getElem_not_mem batch g rest _ k hkr]
            exact setAt_getElem_self _ _ _ (by
              rw [hlen]
              by_contra hlt
              push_neg at hlt
              rw [List.getElem?_eq_none hlt] at hj
              exact Option.noConfusion hj)

theorem reduceOption_map_some {α β : Type} (l : List α) (f : α → β) :
    (l.map (fun a => some (f a))).reduceOption = l.map f := by
  induction l with
  | nil => rfl
  | cons hd tl ih => simp [List.reduceOption_cons_of_some, ih]

theorem promiseAll_ok (est : EnrichedIssue → Except String IssueEstimation)
    (batch : List EnrichedIssue) (g : EnrichedIssue → IssueEstimation) (sched : List Nat)
    (hperm : sched.Perm (List.range batch.length))
    (hok : ∀ a ∈ batch, est a = .ok (g a)) :
    promiseAll est batch sched = .ok (batch.map g) := by
  have hfill := promiseAllFill_ok est batch g hok sched (List.replicate batch.length none)
  have hslots : fillPure batch g sched (List.replicate batch.length none)
      = batch.map (fun a => some (g a)) := by
    apply List.ext_getElem?
    intro k
    by_cases hk : k < batch.length
    · have hmem : k ∈ sched := hperm.mem_iff.mpr (List.mem_range.mpr hk)
      rw [fillPure_getElem_mem batch g sched _ k batch[k] (by simp) hmem
          (List.getElem?_eq_getElem hk)]
      simp [List.getElem?_eq_getElem, hk]
    · have hmem : k ∉ sched := fun hmem => hk (List.mem_range.mp (hperm.mem_iff.mp hmem))
      rw [fillPure_getElem_not_mem batch g sched _ k hmem]
      push_neg at hk
      rw [List.getElem?_eq_none (by simpa using hk), List.getElem?_eq_none (by simpa using hk)]
  unfold promiseAll
  rw [hfill, hslots]
  simp [reduceOption_map_some]

theorem promiseAllFill_ok_all_settled (est : EnrichedIssue → Except String IssueEstimation)
    (batch : List EnrichedIssue) :
    ∀ (sched : List Nat) (acc res : List (Option IssueEstimation)),
      promiseAllFill est batch sched acc = .ok res →
      ∀ j ∈ sched, ∀ a, batch[j]? = some a → ∃ r, est a = .ok r := by
  intro sched
  induction sched with
  | nil => intro acc res _ j hj; simp at hj
  | cons j0 rest ih =>
      intro acc res hfill j hj a ha
      cases hj0 : batch[j0]? with
      | none =>
          simp only [promiseAllFill, hj0] at hfill
          rcases List.mem_cons.mp hj with rfl | hjr
          · rw [ha] at hj0; exact Option.noConfusion hj0
          · exact ih acc res hfill j hjr a ha
      | some b =>
          cases he : est b with
          | error e => simp [promiseAllFill, hj0, he] at hfill
          | ok r =>
              simp only [promiseAllFill, hj0, he] at hfill
              rcases List.mem_cons.mp hj with rfl | hjr
              · have : b = a := by rw [hj0] at ha; exact Option.some.inj ha
                exact ⟨r, this ▸ he⟩
              · exact ih _ res hfill j hjr a ha

theorem promiseAll_isError (est : EnrichedIssue → Except String IssueEstimation)
    (batch : List EnrichedIssue) (sched : List Nat) (a : EnrichedIssue) (e : String)
    (ha : a ∈ batch) (he : est a = .error e)
    (hperm : sched.Perm (List.range batch.length)) :
    ∃ e2, promiseAll est batch sched = .error e2 := by
  unfold promiseAll
  cases hfill : promiseAllFill est batch sched (List.replicate batch.length none) with
  | error e2 => exact ⟨e2, rfl⟩
  | ok res =>
      exfalso
      obtain ⟨k, hk⟩ := List.mem_iff_getElem?.mp ha
      have hklen : k < batch.length := by
        by_contra hlt
        push_neg at hlt
        rw [List.getElem?_eq_none hlt] at hk
        exact Option.noConfusion hk
      have hks : k ∈ sched := hperm.mem_iff.mpr (List.mem_range.mpr hklen)
      obtain ⟨r, hr⟩ := promiseAllFill_ok_all_settled est batch sched _ res hfill k hks a hk
      rw [he] at hr
      exact Except.noConfusion hr

/-- Fuel-driven builder for the event trace of an all-successful run
(structural recursion so that concrete traces evaluate inside the kernel). -/
def expectedBatchEventsGo : Nat → Nat → Nat → Nat → List BatchEvent
  | 0, _, _, _ => []
  | fuel + 1, len, i, n =>
      if len = 0 then []
      else
        (List.range (min 5 len)).map (fun j => BatchEvent.call (i + j))
          ++ BatchEvent.progressReport (min (i + 5) n) n
            :: expectedBatchEventsGo fuel (len - 5) (i + 5) n

/-- Event trace of an all-successful run: it depends only on the number of
remaining issues, the offset and the total, not on the estimator or on the
completion schedules. -/
def expectedBatchEvents (len i n : Nat) : List BatchEvent :=
  expectedBatchEventsGo len len i n

theorem expectedBatchEventsGo_fuel :
    ∀ (fuel fuel' len i n : Nat), len ≤ fuel → len ≤ fuel' →
      expectedBatchEventsGo fuel len i n = expectedBatchEventsGo fuel' len i n := by
  intro fuel
  induction fuel with
  | zero =>
      intro fuel' len i n h1 h2
      interval_cases len
      cases fuel' <;> simp [expectedBatchEventsGo]
  | succ f ih =>
      intro fuel' len i n h1 h2
      cases len with
      | zero => cases fuel' <;> simp [expectedBatchEventsGo]
      | succ m =>
          cases fuel' with
          | zero => omega
          | succ f' =>
              simp only [expectedBatchEventsGo, if_neg (Nat.succ_ne_zero m)]
              rw [ih f' (m + 1 - 5) (i + 5) n (by omega) (by omega)]

theorem expectedBatchEvents_succ (m i n : Nat) :
    expectedBatchEvents (m + 1) i n
      = (List.range (min 5 (m + 1))).map (fun j => BatchEvent.call (i + j))
          ++ BatchEvent.progressReport (min (i + 5) n) n
            :: expectedBatchEvents (m + 1 - 5) (i + 5) n := by
  show expectedBatchEventsGo (m + 1) (m + 1) i n = _
  simp only [expectedBatchEventsGo, if_neg (Nat.succ_ne_zero m)]
  rw [expectedBatchEventsGo_fuel m (m + 1 - 5) (m + 1 - 5) (i + 5) n (by omega) (le_refl _)]
  rfl

theorem estimateIssuesBatchAux_ok (est : EnrichedIssue → Except String IssueEstimation)
    (scheds : Nat → List Nat) (g : EnrichedIssue → IssueEstimation) :
    ∀ (len : Nat) (rest : List EnrichedIssue) (i n : Nat), rest.length = len →
      (∀ a ∈ rest, est a = .ok (g a)) →
      (∀ k, 5 * k < rest.length →
        (scheds (i + 5 * k)).Perm (List.range (min 5 (rest.length - 5 * k)))) →
      estimateIssuesBatchAux est scheds n rest i
        = (.ok (rest.map g), expectedBatchEvents rest.length i n) := by
  intro len
  induction len using Nat.strong_induction_on with
  | _ len ih =>
      intro rest i n hlen hok hperm
      match rest with
      | [] => simp [estimateIssuesBatchAux, expectedBatchEvents, expectedBatchEventsGo]
      | issue :: tl =>
          have hlen1 : tl.length + 1 = len := by simpa using hlen
          have hbatchlen : ((issue :: tl).take 5).length = min 5 (tl.length + 1) := by
            simp only [List.length_take, List.length_cons]
          have hperm0 : (scheds i).Perm (List.range ((issue :: tl).take 5).length) := by
            have h0 := hperm 0 (by simp only [List.length_cons]; omega)
            rw [hbatchlen]
            simpa using h0
          have hok0 : ∀ a ∈ (issue :: tl).take 5, est a = .ok (g a) :=
            fun a ha => hok a (List.mem_of_mem_take ha)
          have hpa := promiseAll_ok est ((issue :: tl).take 5) g (scheds i) hperm0 hok0
          have hdroplen : ((issue :: tl).drop 5).length = tl.length + 1 - 5 := by
            simp only [List.length_drop, List.length_cons]
          have hrec := ih (tl.length + 1 - 5) (by omega) ((issue :: tl).drop 5) (i + 5) n
            hdroplen
            (fun a ha => hok a (List.mem_of_mem_drop ha))
            (by
              intro k hk
              rw [hdroplen] at hk
              have h2 := hperm (k + 1) (by simp only [List.length_cons]; omega)
              have e1 : i + 5 + 5 * k = i + 5 * (k + 1) := by ring
              have e3 : min 5 ((issue :: tl).length - 5 * (k + 1))
                  = min 5 (((issue :: tl).drop 5).length - 5 * k) := by
                rw [hdroplen]
                simp only [List.length_cons]
                congr 1
                omega
              rw [e1]
              rw [e3] at h2
              exact h2)
          simp only [estimateIssuesBatchAux, hpa, hrec, Prod.mk.injEq]
          constructor
          · rw [← List.map_append, List.take_append_drop]
          · rw [hbatchlen, hdroplen]
            show _ = expectedBatchEvents (tl.length + 1) i n
            rw [expectedBatchEvents_succ]

theorem expectedBatchEvents_prog_before_call :
    ∀ (len i n : Nat), 5 ∣ i → ∀ (q idx k : Nat),
      (expectedBatchEvents len i n)[q]? = some (BatchEvent.call idx) →
      5 * (k + 1) ≤ idx → i ≤ 5 * k →
      BatchEvent.progressReport (min (5 * (k + 1)) n) n ∈ (expectedBatchEvents len i n).take q := by
  intro len
  induction len using Nat.strong_induction_on with
  | _ len ih =>
      intro i n hdvd q idx k hq hk hik
      match len with
      | 0 => simp [expectedBatchEvents, expectedBatchEventsGo] at hq
      | m + 1 =>
          rw [expectedBatchEvents_succ] at hq ⊢
          set A : List BatchEvent := (List.range (min 5 (m + 1))).map (fun j => BatchEvent.call (i + j)) with hA
          have hAlen : A.length = min 5 (m + 1) := by simp [hA]
          rw [List.getElem?_append] at hq
          by_cases hqA : q < A.length
          · rw [if_pos hqA] at hq
            rw [hAlen] at hqA
            have hAq : A[q]? = some (BatchEvent.call (i + q)) := by
              simp [hA, List.getElem?_map, List.getElem?_range, hqA]
            rw [hAq] at hq
            have hidx : idx = i + q := by
              have h2 := Option.some.inj hq
              cases h2
              rfl
            omega
          · rw [if_neg hqA] at hq
            push_neg at hqA
            cases hqd : q - A.length with
            | zero =>
                rw [hqd] at hq
                simp only [List.getElem?_cons_zero] at hq
                exact BatchEvent.noConfusion (Option.some.inj hq)
            | succ qr =>
                rw [hqd] at hq
                simp only [List.getElem?_cons_succ] at hq
                have hq' : q = A.length + (qr + 1) := by omega
                rw [hq', List.take_append, List.take_succ_cons]
                rcases Nat.lt_or_ge i (5 * k) with hlt | hge
                · obtain ⟨c, rfl⟩ := hdvd
                  have h5 : 5 * c + 5 ≤ 5 * k := by omega
                  have hrec := ih (m + 1 - 5) (by omega) (5 * c + 5) n ⟨c + 1, by ring⟩
                    qr idx k hq hk h5
                  refine List.mem_append_right _ ?_
                  exact List.mem_cons_of_mem _ hrec
                · have hik5 : i = 5 * k := by omega
                  subst hik5
                  have h55 : 5 * (k + 1) = 5 * k + 5 := by ring
                  rw [h55]
                  exact List.mem_append_right _ (List.mem_cons_self _ _)

/-- C3: results come back in input order for every completion schedule, and no
estimation of group `k+1` starts before group `k`'s progress update has been
emitted. -/
theorem spec_c3_results_in_input_order_and_group_sequencing
    (est : EnrichedIssue → Except String IssueEstimation) (scheds : Nat → List Nat)
    (issues : List EnrichedIssue) (g : EnrichedIssue → IssueEstimation)
    (hok : ∀ a ∈ issues, est a = .ok (g a))
    (hperm : ∀ k, k < (issues.length + 4) / 5 →
      (scheds (5 * k)).Perm (List.range (min 5 (issues.length - 5 * k)))) :
    (estimateIssuesBatch est scheds issues).fst = .ok (issues.map g)
    ∧ ∀ q idx k, ((estimateIssuesBatch est scheds issues).snd)[q]? = some (BatchEvent.call idx) →
        5 * (k + 1) ≤ idx →
        BatchEvent.progressReport (min (5 * (k + 1)) issues.length) issues.length
          ∈ ((estimateIssuesBatch est scheds issues).snd).take q := by
  have hcf := estimateIssuesBatchAux_ok est scheds g issues.length issues 0 issues.length rfl hok
    (by
      intro k hk
      have := hperm k (by omega)
      simpa using this)
  unfold estimateIssuesBatch
  rw [hcf]
  refine ⟨rfl, ?_⟩
  intro q idx k hq hk
  exact expectedBatchEvents_prog_before_call issues.length 0 issues.length ⟨0, rfl⟩ q idx k hq hk
    (Nat.zero_le _)

/-- C8: a 23-issue run in groups of 5 emits exactly the five cumulative progress
reports (5,23), (10,23), (15,23), (20,23), (23,23), in that order. -/
theorem spec_c8_progress_reports_for_23_issues
    (est : EnrichedIssue → Except String IssueEstimation) (scheds : Nat → List Nat)
    (issues : List EnrichedIssue) (g : EnrichedIssue → IssueEstimation)
    (h23 : issues.length = 23)
    (hok : ∀ a ∈ issues, est a = .ok (g a))
    (hperm : ∀ k, k < (issues.length + 4) / 5 →
      (scheds (5 * k)).Perm (List.range (min 5 (issues.length - 5 * k)))) :
    progressEvents (estimateIssuesBatch est scheds issues).snd
      = [(5, 23), (10, 23), (15, 23), (20, 23), (23, 23)] := by
  have hcf := estimateIssuesBatchAux_ok est scheds g issues.length issues 0 issues.length rfl hok
    (by
      intro k hk
      have := hperm k (by omega)
      simpa using this)
  unfold estimateIssuesBatch
  rw [hcf]
  simp only [h23]
  decide

def mkIssue (k : Nat) : EnrichedIssue :=
  { number := k, title := "issue " ++ toString k, body := none, labels := [], state := "open"
    createdAt := "", updatedAt := "", comments := [], commentCount := 0
    url := "https://github.com/acme/app/issues/" ++ toString k, author := "alice" }

def demoG (a : EnrichedIssue) : IssueEstimation :=
  { issueNumber := a.number, title := a.title, complexity := "low"
    estimatedCost := (a.number : ℚ), reasoning := "demo", labels := a.labels, url := a.url }

def demoEst (a : EnrichedIssue) : Except String IssueEstimation := .ok (demoG a)

def c3Issues : List EnrichedIssue := (List.range 7).map mkIssue

def c3Scheds : Nat → List Nat := fun i => if i = 0 then [4, 2, 0, 1, 3] else [1, 0]

theorem spec_c3_results_in_input_order_and_group_sequencing_witness :
    (∀ a ∈ c3Issues, demoEst a = .ok (demoG a))
    ∧ (∀ k, k < (c3Issues.length + 4) / 5 →
        (c3Scheds (5 * k)).Perm (List.range (min 5 (c3Issues.length - 5 * k))))
    ∧ ((estimateIssuesBatch demoEst c3Scheds c3Issues).fst = .ok (c3Issues.map demoG)
       ∧ ∀ q idx k,
          ((estimateIssuesBatch demoEst c3Scheds c3Issues).snd)[q]? = some (BatchEvent.call idx) →
          5 * (k + 1) ≤ idx →
          BatchEvent.progressReport (min (5 * (k + 1)) c3Issues.length) c3Issues.length
            ∈ ((estimateIssuesBatch demoEst c3Scheds c3Issues).snd).take q) :=
  ⟨fun a _ => rfl, by decide,
    spec_c3_results_in_input_order_and_group_sequencing demoEst c3Scheds c3Issues demoG
      (fun a _ => rfl) (by decide)⟩

def c8Issues : List EnrichedIssue := (List.range 23).map mkIssue

def c8Scheds : Nat → List Nat := fun i => List.range (min 5 (23 - i))

theorem spec_c8_progress_reports_for_23_issues_witness :
    c8Issues.length = 23
    ∧ (∀ a ∈ c8Issues, demoEst a = .ok (demoG a))
    ∧ (∀ k, k < (c8Issues.length + 4) / 5 →
        (c8Scheds (5 * k)).Perm (List.range (min 5 (c8Issues.length - 5 * k))))
    ∧ progressEvents (estimateIssuesBatch demoEst c8Scheds c8Issues).snd
        = [(5, 23), (10, 23), (15, 23), (20, 23), (23, 23)] :=
  ⟨by decide, fun a _ => rfl, by decide,
    spec_c8_progress_reports_for_23_issues demoEst c8Scheds c8Issues demoG
      (by decide) (fun a _ => rfl) (by decide)⟩

/-! ## CSV generation (`convertEstimationsToCSV` from `ai.ts`) -/

/-- `escapeCSVField` from `ai.ts`: when a field contains a comma, a double
quote or a newline, double every quote (`replace(/"/g, '""')`) and wrap the
field in double quotes; otherwise emit it unchanged. -/
def escapeCSVField (field : String) : String :=
  if field.data.contains ',' || field.data.contains '"' || field.data.contains '\n' then
    "\"" ++ String.mk (field.data.flatMap (fun c => if c = '"' then ['"', '"'] else [c])) ++ "\""
  else field

/-- JavaScript number-to-string conversion, modelled for the integral values
the claims exercise (a JavaScript number with no fractional part prints with
no decimal point); non-integral rationals fall back to the exact `ℚ`
rendering, on which no claim depends. -/
def jsNumToString (q : ℚ) : String := if q.den = 1 then toString q.num else toString q

/-- `convertEstimationsToCSV` from `ai.ts`: a fixed header line, then one row
per estimation with the fields
`issue_number, title, complexity, estimated_cost, labels, reasoning, url`
joined by commas (labels joined by `"; "` first); only the title, the joined
labels and the reasoning pass through `escapeCSVField`. -/
def convertEstimationsToCSV (estimations : List IssueEstimation) : String :=
  let header := "issue_number,title,complexity,estimated_cost,labels,reasoning,url"
  let rows := estimations.map (fun est =>
    String.intercalate ","
      [toString est.issueNumber, escapeCSVField est.title, est.complexity,
       jsNumToString est.estimatedCost,
       escapeCSVField (String.intercalate "; " est.labels),
       escapeCSVField est.reasoning, est.url])
  String.intercalate "\n" (header :: rows)

/-- The streaming route's tail: run the batch estimation, then produce the
CSV payload from the results; a batch failure reaches the catch-all handler
and no CSV is built. -/
def runEstimationAndCSV (est : EnrichedIssue → Except String IssueEstimation)
    (scheds : Nat → List Nat) (issues : List EnrichedIssue) : Except String String :=
  match (estimateIssuesBatch est scheds issues).fst with
  | .error e => .error e
  | .ok ests => .ok (convertEstimationsToCSV ests)

theorem estimateIssuesBatchAux_error (est : EnrichedIssue → Except String IssueEstimation)
    (scheds : Nat → List Nat) (bad : EnrichedIssue) (e0 : String) (g : EnrichedIssue → IssueEstimation)
    (hbe : est bad = .error e0) :
    ∀ (G : Nat) (rest : List EnrichedIssue) (i n : Nat),
      (∀ a ∈ rest.take (5 * G), est a = .ok (g a)) →
      bad ∈ (rest.drop (5 * G)).take 5 →
      (∀ k, k ≤ G → 5 * k < rest.length →
        (scheds (i + 5 * k)).Perm (List.range (min 5 (rest.length - 5 * k)))) →
      (∃ e, (estimateIssuesBatchAux est scheds n rest i).fst = .error e)
      ∧ ∀ ev ∈ (estimateIssuesBatchAux est scheds n rest i).snd,
          ∀ idx, ev = BatchEvent.call idx → idx < i + 5 * G + 5 := by
  intro G
  induction G with
  | zero =>
      intro rest i n hpre hbad hperm
      match rest with
      | [] => simp at hbad
      | issue :: tl =>
          have hbatchlen : ((issue :: tl).take 5).length = min 5 (tl.length + 1) := by
            simp only [List.length_take, List.length_cons]
          have hperm0 : (scheds i).Perm (List.range ((issue :: tl).take 5).length) := by
            have h0 := hperm 0 (le_refl 0) (by simp only [List.length_cons]; omega)
            rw [hbatchlen]
            simpa using h0
          have hbad5 : bad ∈ (issue :: tl).take 5 := by simpa using hbad
          obtain ⟨e2, he2⟩ := promiseAll_isError est ((issue :: tl).take 5) (scheds i) bad e0
            hbad5 hbe hperm0
          refine ⟨⟨e2, ?_⟩, ?_⟩
          · simp only [estimateIssuesBatchAux, he2]
          · intro ev hev idx hevc
            simp only [estimateIssuesBatchAux, he2] at hev
            subst hevc
            simp only [List.mem_map, List.mem_range] at hev
            obtain ⟨j, hj, hje⟩ := hev
            have : idx = i + j := by
              have h2 := BatchEvent.call.inj hje
              omega
            omega
  | succ G ih =>
      intro rest i n hpre hbad hperm
      have hrestlen : 5 * (G + 1) < rest.length := by
        by_contra hle
        push_neg at hle
        rw [List.drop_eq_nil_of_le hle] at hbad
        simp at hbad
      match rest with
      | [] => simp at hrestlen
      | issue :: tl =>
          have hbatchlen : ((issue :: tl).take 5).length = min 5 (tl.length + 1) := by
            simp only [List.length_take, List.length_cons]
          have hperm0 : (scheds i).Perm (List.range ((issue :: tl).take 5).length) := by
            have h0 := hperm 0 (Nat.zero_le _) (by simp only [List.length_cons]; omega)
            rw [hbatchlen]
            simpa using h0
          have hok0 : ∀ a ∈ (issue :: tl).take 5, est a = .ok (g a) := by
            intro a ha
            apply hpre
            have h5 : (issue :: tl).take 5 = ((issue :: tl).take (5 * (G + 1))).take 5 := by
              rw [List.take_take]
              congr 1
              omega
            rw [h5] at ha
            exact List.mem_of_mem_take ha
          have hpa := promiseAll_ok est ((issue :: tl).take 5) g (scheds i) hperm0 hok0
          have hdroplen : ((issue :: tl).drop 5).length = tl.length + 1 - 5 := by
            simp only [List.length_drop, List.length_cons]
          have hrec := ih ((issue :: tl).drop 5) (i + 5) n
            (by
              intro a ha
              apply hpre
              have h5 : ((issue :: tl).drop 5).take (5 * G)
                  = ((issue :: tl).take (5 * (G + 1))).drop 5 := by
                rw [List.drop_take]
                congr 1
              rw [h5] at ha
              exact List.mem_of_mem_drop ha)
            (by
              have h5 : ((issue :: tl).drop 5).drop (5 * G) = (issue :: tl).drop (5 * (G + 1)) := by
                rw [List.drop_drop]
                congr 1
                omega
              rw [h5]
              exact hbad)
            (by
              intro k hk hklen
              rw [hdroplen] at hklen
              have h2 := hperm (k + 1) (by omega) (by simp only [List.length_cons]; omega)
              have e1 : i + 5 + 5 * k = i + 5 * (k + 1) := by ring
              have e3 : min 5 ((issue :: tl).length - 5 * (k + 1))
                  = min 5 (((issue :: tl).drop 5).length - 5 * k) := by
                rw [hdroplen]
                simp only [List.length_cons]
                congr 1
                omega
              rw [e1]
              rw [e3] at h2
              exact h2)
          obtain ⟨⟨e, he⟩, hcalls⟩ := hrec
          refine ⟨⟨e, ?_⟩, ?_⟩
          · simp only [estimateIssuesBatchAux, hpa, he]
          · intro ev hev idx hevc
            subst hevc
            simp only [estimateIssuesBatchAux, hpa] at hev
            rw [List.mem_append] at hev
            rcases hev with hev | hev
            · simp only [List.mem_map, List.mem_range] at hev
              obtain ⟨j, hj, hje⟩ := hev
              have : idx = i + j := by
                have h2 := BatchEvent.call.inj hje
                omega
              have hj5 : j < 5 := by
                rw [hbatchlen] at hj
                omega
              omega
            · rcases List.mem_cons.mp hev with hev | hev
              · exact BatchEvent.noConfusion hev
              · have := hcalls _ hev idx rfl
                omega

/-- C6: a single failing estimate in group `G` makes the whole batch call fail:
the run returns the propagated error instead of a partial result list, no CSV
is produced, and no issue of any later group is ever estimated. -/
theorem spec_c6_single_failure_aborts_run
    (est : EnrichedIssue → Except String IssueEstimation) (scheds : Nat → List Nat)
    (issues : List EnrichedIssue) (G : Nat) (g : EnrichedIssue → IssueEstimation)
    (e0 : String) (bad : EnrichedIssue)
    (hpre : ∀ a ∈ issues.take (5 * G), est a = .ok (g a))
    (hbad : bad ∈ (issues.drop (5 * G)).take 5)
    (hbe : est bad = .error e0)
    (hperm : ∀ k, k ≤ G → 5 * k < issues.length →
      (scheds (5 * k)).Perm (List.range (min 5 (issues.length - 5 * k)))) :
    (∃ e, (estimateIssuesBatch est scheds issues).fst = .error e)
    ∧ (∃ e, runEstimationAndCSV est scheds issues = .error e)
    ∧ ∀ idx, 5 * (G + 1) ≤ idx →
        BatchEvent.call idx ∉ (estimateIssuesBatch est scheds issues).snd := by
  have h := estimateIssuesBatchAux_error est scheds bad e0 g hbe G issues 0 issues.length hpre hbad
    (by
      intro k hk hklen
      have := hperm k hk hklen
      simpa using this)
  obtain ⟨⟨e, he⟩, hcalls⟩ := h
  have he2 : (estimateIssuesBatch est scheds issues).fst = .error e := he
  refine ⟨⟨e, he2⟩, ⟨e, ?_⟩, ?_⟩
  · simp only [runEstimationAndCSV, he2]
  · intro idx hidx hmem
    have := hcalls _ hmem idx rfl
    omega

instance : DecidableEq (Except String IssueEstimation) := fun a b =>
  match a, b with
  | .error e1, .error e2 => decidable_of_iff (e1 = e2) (by simp)
  | .ok r1, .ok r2 => decidable_of_iff (r1 = r2) (by simp)
  | .error _, .ok _ => isFalse (by simp)
  | .ok _, .error _ => isFalse (by simp)

def c6Issues : List EnrichedIssue := (List.range 12).map mkIssue

def c6Scheds : Nat → List Nat := fun i => List.range (min 5 (12 - i))

/-- Estimator that fails on issue number 6 (second group) and succeeds
elsewhere. -/
def c6Est (a : EnrichedIssue) : Except String IssueEstimation :=
  if a.number = 6 then .error "boom" else .ok (demoG a)

theorem spec_c6_single_failure_aborts_run_witness :
    (∀ a ∈ c6Issues.take (5 * 1), c6Est a = .ok (demoG a))
    ∧ mkIssue 6 ∈ (c6Issues.drop (5 * 1)).take 5
    ∧ c6Est (mkIssue 6) = .error "boom"
    ∧ (∀ k, k ≤ 1 → 5 * k < c6Issues.length →
        (c6Scheds (5 * k)).Perm (List.range (min 5 (c6Issues.length - 5 * k))))
    ∧ ((∃ e, (estimateIssuesBatch c6Est c6Scheds c6Issues).fst = .error e)
       ∧ (∃ e, runEstimationAndCSV c6Est c6Scheds c6Issues = .error e)
       ∧ ∀ idx, 5 * (1 + 1) ≤ idx →
          BatchEvent.call idx ∉ (estimateIssuesBatch c6Est c6Scheds c6Issues).snd) :=
  ⟨by decide, by decide, by decide, by decide,
    spec_c6_single_failure_aborts_run c6Est c6Scheds c6Issues 1 demoG "boom" (mkIssue 6)
      (by decide) (by decide) (by decide) (by decide)⟩

/-! ## Summary statistics (`estimate-repo-issues` route) -/

/-- `totalCost`: `estimations.reduce((sum, est) => sum + est.estimatedCost, 0)`. -/
def totalCostOf (estimations : List IssueEstimation) : ℚ :=
  estimations.foldl (fun sum est => sum + est.estimatedCost) 0

/-- `avgCost = totalCost / estimations.length`. In JavaScript an empty run
yields `NaN` (0/0); in the exact rational model division by zero is 0. -/
def avgCostOf (estimations : List IssueEstimation) : ℚ :=
  totalCostOf estimations / estimations.length

/-- `complexityCounts`: the reduce building `acc[est.complexity] =
(acc[est.complexity] || 0) + 1`, as a total function from tier names to
counts (missing keys read as 0). -/
def complexityCountsOf (estimations : List IssueEstimation) : String → Nat :=
  estimations.foldl
    (fun acc est => fun t => if t = est.complexity then acc t + 1 else acc t)
    (fun _ => 0)

theorem totalCostOf_foldl (l : List IssueEstimation) :
    ∀ a : ℚ, l.foldl (fun sum est => sum + est.estimatedCost) a
      = a + (l.map (fun est => est.estimatedCost)).sum := by
  induction l with
  | nil => intro a; simp
  | cons e tl ih =>
      intro a
      simp only [List.foldl_cons, List.map_cons, List.sum_cons, ih]
      ring

theorem complexityCountsOf_foldl (l : List IssueEstimation) :
    ∀ (acc : String → Nat) (t : String),
      (l.foldl (fun acc est => fun t => if t = est.complexity then acc t + 1 else acc t) acc) t
        = acc t + l.countP (fun est => est.complexity == t) := by
  induction l with
  | nil => intro acc t; simp
  | cons e tl ih =>
      intro acc t
      simp only [List.foldl_cons, ih, List.countP_cons]
      by_cases h : t = e.complexity
      · simp [h]
        omega
      · have h2 : (e.complexity == t) = false := by
          simp [Ne.symm h]
        simp [h, h2]

/-- C9: the summary is exact — the total is the sum of all costs, the average is
that sum divided by the number of results, and the histogram counts each tier
exactly. -/
theorem spec_c9_summary_totals_average_histogram (estimations : List IssueEstimation) :
    totalCostOf estimations = (estimations.map (fun est => est.estimatedCost)).sum
    ∧ avgCostOf estimations
        = (estimations.map (fun est => est.estimatedCost)).sum / (estimations.length : ℚ)
    ∧ ∀ t, complexityCountsOf estimations t
        = estimations.countP (fun est => est.complexity == t) := by
  have h1 : totalCostOf estimations = (estimations.map (fun est => est.estimatedCost)).sum := by
    rw [totalCostOf, totalCostOf_foldl]
    ring
  refine ⟨h1, ?_, ?_⟩
  · rw [avgCostOf, h1]
  · intro t
    rw [complexityCountsOf, complexityCountsOf_foldl]
    omega

/-! ## CSV parsing (spec side) and the round-trip -/

/-- Parser mode: outside quotes, inside quotes, or just after a quote while
inside a quoted field (which either doubles into a literal quote or closes
the field). -/
inductive CsvMode where
  | plain
  | quoted
  | quoteSeen
deriving DecidableEq, Repr

/-- Modelled from the spec: standard CSV parsing (fields separated by commas,
records by newlines, quoted fields may contain separators and newlines, and a
doubled quote inside a quoted field is a literal quote). The source contains
no CSV parser; this one exists only to state the spec's round-trip property. -/
def csvParseAux : CsvMode → List Char → List Char → List String → List (List String)
  | _, [], cur, row => [row ++ [String.mk cur]]
  | .plain, c :: rest, cur, row =>
      if c = ',' then csvParseAux .plain rest [] (row ++ [String.mk cur])
      else if c = '\n' then (row ++ [String.mk cur]) :: csvParseAux .plain rest [] []
      else if c = '"' ∧ cur = [] then csvParseAux .quoted rest cur row
      else csvParseAux .plain rest (cur ++ [c]) row
  | .quoted, c :: rest, cur, row =>
      if c = '"' then csvParseAux .quoteSeen rest cur row
      else csvParseAux .quoted rest (cur ++ [c]) row
  | .quoteSeen, c :: rest, cur, row =>
      if c = '"' then csvParseAux .quoted rest (cur ++ ['"']) row
      else if c = ',' then csvParseAux .plain rest [] (row ++ [String.mk cur])
      else if c = '\n' then (row ++ [String.mk cur]) :: csvParseAux .plain rest [] []
      else csvParseAux .plain rest (cur ++ [c]) row

/-- Parse a CSV document into its records and fields. -/
def csvParse (s : String) : List (List String) := csvParseAux .plain s.data [] []

/-- A field value free of comma, double quote and newline (exactly the
values `escapeCSVField` leaves unquoted). -/
def cleanField (s : String) : Bool :=
  s.data.all (fun c => !(c == ',') && !(c == '"') && !(c == '\n'))

/-- A chunk of characters that, fed to the parser in plain mode at a field
boundary, is consumed as exactly one field with value `v`. -/
def ChunkOk (chunk : List Char) (v : String) : Prop :=
  (∀ rest row, csvParseAux .plain (chunk ++ ',' :: rest) [] row
      = csvParseAux .plain rest [] (row ++ [v]))
  ∧ (∀ rest row, csvParseAux .plain (chunk ++ '\n' :: rest) [] row
      = (row ++ [v]) :: csvParseAux .plain rest [] [])
  ∧ (∀ row, csvParseAux .plain chunk [] row = [row ++ [v]])

theorem csvParseAux_plain_clean (cs : List Char)
    (hc : ∀ c ∈ cs, ¬(c = ',') ∧ ¬(c = '"') ∧ ¬(c = '\n')) :
    ∀ (rest : List Char) (cur : List Char) (row : List String),
      csvParseAux .plain (cs ++ rest) cur row = csvParseAux .plain rest (cur ++ cs) row := by
  induction cs with
  | nil => intro rest cur row; simp
  | cons c cs ih =>
      intro rest cur row
      have hcc := hc c (List.mem_cons_self _ _)
      have hq : ¬(c = '"' ∧ cur = []) := fun h => hcc.2.1 h.1
      have ihh := ih (fun d hd => hc d (List.mem_cons_of_mem _ hd))
      simp only [List.cons_append, csvParseAux, if_neg hcc.1, if_neg hcc.2.2, if_neg hq,
        List.append_eq]
      rw [ihh]
      simp

/-- Body of an escaped field: every quote is doubled. -/
def escBody (cs : List Char) : List Char :=
  cs.flatMap (fun c => if c = '"' then ['"', '"'] else [c])

theorem csvParseAux_nil (m : CsvMode) (cur : List Char) (row : List String) :
    csvParseAux m [] cur row = [row ++ [String.mk cur]] := by
  cases m <;> rfl

theorem step_quoted_quote (rest cur : List Char) (row : List String) :
    csvParseAux .quoted ('"' :: rest) cur row = csvParseAux .quoteSeen rest cur row := by
  simp [csvParseAux]

theorem step_quoted_other (c : Char) (hc : ¬(c = '"')) (rest cur : List Char) (row : List String) :
    csvParseAux .quoted (c :: rest) cur row = csvParseAux .quoted rest (cur ++ [c]) row := by
  simp [csvParseAux, hc]

theorem step_quoteSeen_quote (rest cur : List Char) (row : List String) :
    csvParseAux .quoteSeen ('"' :: rest) cur row = csvParseAux .quoted rest (cur ++ ['"']) row := by
  simp [csvParseAux]

theorem step_quoteSeen_comma (rest cur : List Char) (row : List String) :
    csvParseAux .quoteSeen (',' :: rest) cur row
      = csvParseAux .plain rest [] (row ++ [String.mk cur]) := by
  simp [csvParseAux]

theorem step_quoteSeen_newline (rest cur : List Char) (row : List String) :
    csvParseAux .quoteSeen ('\n' :: rest) cur row
      = (row ++ [String.mk cur]) :: csvParseAux .plain rest [] [] := by
  simp [csvParseAux]

theorem step_plain_comma (rest cur : List Char) (row : List String) :
    csvParseAux .plain (',' :: rest) cur row
      = csvParseAux .plain rest [] (row ++ [String.mk cur]) := by
  simp [csvParseAux]

theorem step_plain_newline (rest cur : List Char) (row : List String) :
    csvParseAux .plain ('\n' :: rest) cur row
      = (row ++ [String.mk cur]) :: csvParseAux .plain rest [] [] := by
  simp [csvParseAux]

theorem step_plain_open_quote (rest : List Char) (row : List String) :
    csvParseAux .plain ('"' :: rest) [] row = csvParseAux .quoted rest [] row := by
  simp [csvParseAux]

theorem csvParseAux_quoted_body (cs : List Char) :
    ∀ (rest : List Char) (cur : List Char) (row : List String),
      csvParseAux .quoted (escBody cs ++ '"' :: rest) cur row
        = csvParseAux .quoteSeen rest (cur ++ cs) row := by
  induction cs with
  | nil =>
      intro rest cur row
      rw [show escBody [] ++ '"' :: rest = '"' :: rest from by simp [escBody]]
      rw [step_quoted_quote]
      simp
  | cons c cs ih =>
      intro rest cur row
      by_cases hc : c = '"'
      · subst hc
        rw [show escBody ('"' :: cs) ++ '"' :: rest
            = '"' :: '"' :: (escBody cs ++ '"' :: rest) from by simp [escBody]]
        rw [step_quoted_quote, step_quoteSeen_quote, ih]
        simp
      · rw [show escBody (c :: cs) ++ '"' :: rest
            = c :: (escBody cs ++ '"' :: rest) from by simp [escBody, hc]]
        rw [step_quoted_other c hc, ih]
        simp

theorem mk_data_eq (s : String) : String.mk s.data = s := rfl

theorem cleanField_spec (s : String) (h : cleanField s = true) :
    ∀ c ∈ s.data, ¬(c = ',') ∧ ¬(c = '"') ∧ ¬(c = '\n') := by
  intro c hcmem
  have h2 := List.all_eq_true.mp h c hcmem
  simp at h2
  exact ⟨h2.1.1, h2.1.2, h2.2⟩

theorem chunk_raw (s : String) (h : cleanField s = true) : ChunkOk s.data s := by
  have hc := cleanField_spec s h
  refine ⟨?_, ?_, ?_⟩
  · intro rest row
    rw [csvParseAux_plain_clean s.data hc, step_plain_comma]
    simp [mk_data_eq]
  · intro rest row
    rw [csvParseAux_plain_clean s.data hc, step_plain_newline]
    simp [mk_data_eq]
  · intro row
    rw [show (s.data : List Char) = s.data ++ [] from by simp,
      csvParseAux_plain_clean s.data hc, csvParseAux_nil]
    simp [mk_data_eq]

theorem chunk_escaped (s : String) : ChunkOk (escapeCSVField s).data s := by
  by_cases hdirty : (s.data.contains ',' || s.data.contains '"' || s.data.contains '\n') = true
  · have hdata : (escapeCSVField s).data = '"' :: (escBody s.data ++ ['"']) := by
      simp only [escapeCSVField, if_pos hdirty, escBody]
      simp [String.data_append]
    refine ⟨?_, ?_, ?_⟩
    · intro rest row
      rw [hdata]
      rw [show ('"' :: (escBody s.data ++ ['"'])) ++ ',' :: rest
          = '"' :: (escBody s.data ++ '"' :: (',' :: rest)) from by simp]
      rw [step_plain_open_quote, csvParseAux_quoted_body, step_quoteSeen_comma]
      simp [mk_data_eq]
    · intro rest row
      rw [hdata]
      rw [show ('"' :: (escBody s.data ++ ['"'])) ++ '\n' :: rest
          = '"' :: (escBody s.data ++ '"' :: ('\n' :: rest)) from by simp]
      rw [step_plain_open_quote, csvParseAux_quoted_body, step_quoteSeen_newline]
      simp [mk_data_eq]
    · intro row
      rw [hdata]
      rw [show ('"' :: (escBody s.data ++ ['"']) : List Char)
          = '"' :: (escBody s.data ++ '"' :: ([] : List Char)) from by simp]
      rw [step_plain_open_quote, csvParseAux_quoted_body, csvParseAux_nil]
      simp [mk_data_eq]
  · have hesc : escapeCSVField s = s := by
      simp only [escapeCSVField, if_neg hdirty]
    have hclean : cleanField s = true := by
      simp at hdirty
      obtain ⟨⟨hd1, hd2⟩, hd3⟩ := hdirty
      rw [cleanField, List.all_eq_true]
      intro c hcmem
      simp only [Bool.and_eq_true, Bool.not_eq_true', beq_eq_false_iff_ne, ne_eq]
      refine ⟨⟨fun hcc => ?_, fun hcc => ?_⟩, fun hcc => ?_⟩
      · exact hd1 (hcc ▸ hcmem)
      · exact hd2 (hcc ▸ hcmem)
      · exact hd3 (hcc ▸ hcmem)
    rw [hesc]
    exact chunk_raw s hclean

/-- The suffix a separator-join contributes after its first element. -/
def joinRest (s : String) : List String → String
  | [] => ""
  | a :: as => s ++ a ++ joinRest s as

theorem joinRest_cons (s a : String) (as : List String) :
    joinRest s (a :: as) = s ++ a ++ joinRest s as := rfl

theorem intercalate_go_eq (s : String) :
    ∀ (l : List String) (acc : String), String.intercalate.go acc s l = acc ++ joinRest s l := by
  intro l
  induction l with
  | nil => intro acc; rw [joinRest]; exact (String.append_empty acc).symm
  | cons a as ih =>
      intro acc
      rw [show String.intercalate.go acc s (a :: as)
          = String.intercalate.go (acc ++ s ++ a) s as from rfl, ih, joinRest]
      rw [String.append_assoc, String.append_assoc, String.append_assoc]

theorem intercalate_eq_joinRest (s h : String) (t : List String) :
    String.intercalate s (h :: t) = h ++ joinRest s t := by
  rw [show String.intercalate s (h :: t) = String.intercalate.go h s t from rfl,
    intercalate_go_eq]

theorem comma_data : ("," : String).data = [','] := rfl

theorem newline_data : ("\n" : String).data = ['\n'] := rfl

theorem row7_data (f0 f1 f2 f3 f4 f5 f6 : String) :
    (String.intercalate "," [f0, f1, f2, f3, f4, f5, f6]).data
      = f0.data ++ ',' :: (f1.data ++ ',' :: (f2.data ++ ',' :: (f3.data ++ ',' :: (f4.data
          ++ ',' :: (f5.data ++ ',' :: f6.data))))) := by
  rw [show String.intercalate "," [f0, f1, f2, f3, f4, f5, f6]
      = f0 ++ "," ++ f1 ++ "," ++ f2 ++ "," ++ f3 ++ "," ++ f4 ++ "," ++ f5 ++ "," ++ f6 from rfl]
  simp [String.data_append, comma_data]

theorem record7_parse (c0 c1 c2 c3 c4 c5 c6 : List Char) (v0 v1 v2 v3 v4 v5 v6 : String)
    (h0 : ChunkOk c0 v0) (h1 : ChunkOk c1 v1) (h2 : ChunkOk c2 v2) (h3 : ChunkOk c3 v3)
    (h4 : ChunkOk c4 v4) (h5 : ChunkOk c5 v5) (h6 : ChunkOk c6 v6) :
    (∀ (rest : List Char) (row : List String),
      csvParseAux .plain
        ((c0 ++ ',' :: (c1 ++ ',' :: (c2 ++ ',' :: (c3 ++ ',' :: (c4 ++ ',' :: (c5 ++ ',' :: c6))))))
          ++ '\n' :: rest) [] row
        = (row ++ [v0, v1, v2, v3, v4, v5, v6]) :: csvParseAux .plain rest [] [])
    ∧ (∀ row : List String,
      csvParseAux .plain
        (c0 ++ ',' :: (c1 ++ ',' :: (c2 ++ ',' :: (c3 ++ ',' :: (c4 ++ ',' :: (c5 ++ ',' :: c6))))))
        [] row
        = [row ++ [v0, v1, v2, v3, v4, v5, v6]]) := by
  constructor
  · intro rest row
    simp only [List.append_assoc, List.cons_append]
    rw [h0.1, h1.1, h2.1, h3.1, h4.1, h5.1, h6.2.1]
    simp
  · intro row
    rw [h0.1, h1.1, h2.1, h3.1, h4.1, h5.1, h6.2.2]
    simp

/-- The field strings of one CSV row before escaping (what a correct parse
should recover). -/
def csvFieldsFor (est : IssueEstimation) : List String :=
  [toString est.issueNumber, est.title, est.complexity, jsNumToString est.estimatedCost,
   String.intercalate "; " est.labels, est.reasoning, est.url]

/-- The emitted CSV row of one estimation (the map body of
`convertEstimationsToCSV`). -/
def csvRowFor (est : IssueEstimation) : String :=
  String.intercalate ","
    [toString est.issueNumber, escapeCSVField est.title, est.complexity,
     jsNumToString est.estimatedCost,
     escapeCSVField (String.intercalate "; " est.labels),
     escapeCSVField est.reasoning, est.url]

/-- The header fields of the CSV. -/
def csvHeaderFields : List String :=
  ["issue_number", "title", "complexity", "estimated_cost", "labels", "reasoning", "url"]

theorem convertEstimationsToCSV_eq (ests : List IssueEstimation) :
    convertEstimationsToCSV ests
      = String.intercalate "\n"
          ("issue_number,title,complexity,estimated_cost,labels,reasoning,url"
            :: ests.map csvRowFor) := rfl

theorem csvRowFor_data (est : IssueEstimation) :
    (csvRowFor est).data
      = (toString est.issueNumber).data ++ ',' :: ((escapeCSVField est.title).data
          ++ ',' :: (est.complexity.data ++ ',' :: ((jsNumToString est.estimatedCost).data
          ++ ',' :: ((escapeCSVField (String.intercalate "; " est.labels)).data
          ++ ',' :: ((escapeCSVField est.reasoning).data ++ ',' :: est.url.data))))) :=
  row7_data _ _ _ _ _ _ _

theorem record7_row (est : IssueEstimation)
    (hclean : cleanField (toString est.issueNumber) = true ∧ cleanField est.complexity = true
      ∧ cleanField (jsNumToString est.estimatedCost) = true ∧ cleanField est.url = true) :
    (∀ (rest : List Char) (row : List String),
      csvParseAux .plain ((csvRowFor est).data ++ '\n' :: rest) [] row
        = (row ++ csvFieldsFor est) :: csvParseAux .plain rest [] [])
    ∧ (∀ row : List String,
      csvParseAux .plain ((csvRowFor est).data) [] row = [row ++ csvFieldsFor est]) := by
  have h := record7_parse
    (toString est.issueNumber).data (escapeCSVField est.title).data est.complexity.data
    (jsNumToString est.estimatedCost).data
    (escapeCSVField (String.intercalate "; " est.labels)).data
    (escapeCSVField est.reasoning).data est.url.data
    (toString est.issueNumber) est.title est.complexity (jsNumToString est.estimatedCost)
    (String.intercalate "; " est.labels) est.reasoning est.url
    (chunk_raw _ hclean.1) (chunk_escaped est.title) (chunk_raw _ hclean.2.1)
    (chunk_raw _ hclean.2.2.1) (chunk_escaped _) (chunk_escaped est.reasoning)
    (chunk_raw _ hclean.2.2.2)
  constructor
  · intro rest row
    rw [csvRowFor_data]
    rw [h.1 rest row]
    rfl
  · intro row
    rw [csvRowFor_data]
    rw [h.2 row]
    rfl

theorem parse_records :
    ∀ (ests : List IssueEstimation) (e : IssueEstimation),
      (∀ est ∈ e :: ests,
        cleanField (toString est.issueNumber) = true ∧ cleanField est.complexity = true
          ∧ cleanField (jsNumToString est.estimatedCost) = true ∧ cleanField est.url = true) →
      csvParseAux .plain ((String.intercalate "\n" ((e :: ests).map csvRowFor)).data) [] []
        = (e :: ests).map csvFieldsFor := by
  intro ests
  induction ests with
  | nil =>
      intro e hclean
      rw [show String.intercalate "\n" ([e].map csvRowFor) = csvRowFor e from rfl]
      rw [(record7_row e (hclean e (List.mem_cons_self _ _))).2 []]
      rfl
  | cons e2 rest ih =>
      intro e hclean
      have hsplit : String.intercalate "\n" ((e :: e2 :: rest).map csvRowFor)
          = csvRowFor e ++ ("\n" ++ String.intercalate "\n" ((e2 :: rest).map csvRowFor)) := by
        simp only [List.map_cons, intercalate_eq_joinRest, joinRest_cons, String.append_assoc]
      rw [hsplit]
      rw [String.data_append, String.data_append, newline_data, List.singleton_append]
      rw [(record7_row e (hclean e (List.mem_cons_self _ _))).1]
      rw [ih e2 (fun est hm => hclean est (List.mem_cons_of_mem _ hm))]
      rfl

/-- C5 (amended): the CSV has the documented header and field order, labels
joined by `"; "`, and the title, joined-labels and reasoning fields escaped
with doubled-quote quoting — but the `issue_number`, `complexity`,
`estimated_cost` and `url` fields are emitted raw, so the round-trip holds
only when those raw fields are themselves free of comma, quote and newline
(the hypotheses below); in particular any title, labels and reasoning,
including ones with commas, quotes and newlines, are recovered exactly. -/
theorem spec_c5_csv_header_escaping_roundtrip (ests : List IssueEstimation)
    (hclean : ∀ est ∈ ests,
      cleanField (toString est.issueNumber) = true ∧ cleanField est.complexity = true
        ∧ cleanField (jsNumToString est.estimatedCost) = true ∧ cleanField est.url = true) :
    csvParse (convertEstimationsToCSV ests) = csvHeaderFields :: ests.map csvFieldsFor := by
  have hheadchunks := record7_parse
    ("issue_number" : String).data ("title" : String).data ("complexity" : String).data
    ("estimated_cost" : String).data ("labels" : String).data ("reasoning" : String).data
    ("url" : String).data
    "issue_number" "title" "complexity" "estimated_cost" "labels" "reasoning" "url"
    (chunk_raw _ (by decide)) (chunk_raw _ (by decide)) (chunk_raw _ (by decide))
    (chunk_raw _ (by decide)) (chunk_raw _ (by decide)) (chunk_raw _ (by decide))
    (chunk_raw _ (by decide))
  have hheaddata : ("issue_number,title,complexity,estimated_cost,labels,reasoning,url" : String).data
      = ("issue_number" : String).data ++ ',' :: (("title" : String).data
          ++ ',' :: (("complexity" : String).data ++ ',' :: (("estimated_cost" : String).data
          ++ ',' :: (("labels" : String).data ++ ',' :: (("reasoning" : String).data
          ++ ',' :: ("url" : String).data))))) := rfl
  rw [csvParse, convertEstimationsToCSV_eq]
  cases ests with
  | nil =>
      simp only [List.map_nil]
      rw [show String.intercalate "\n"
          ["issue_number,title,complexity,estimated_cost,labels,reasoning,url"]
          = ("issue_number,title,complexity,estimated_cost,labels,reasoning,url" : String) from rfl]
      rw [hheaddata, hheadchunks.2 []]
      rfl
  | cons e rest =>
      have hsplit : String.intercalate "\n"
          ("issue_number,title,complexity,estimated_cost,labels,reasoning,url"
            :: (e :: rest).map csvRowFor)
          = ("issue_number,title,complexity,estimated_cost,labels,reasoning,url" : String)
            ++ ("\n" ++ String.intercalate "\n" ((e :: rest).map csvRowFor)) := by
        simp only [List.map_cons, intercalate_eq_joinRest, joinRest_cons, String.append_assoc]
      rw [hsplit]
      rw [String.data_append, String.data_append, newline_data, List.singleton_append]
      rw [hheaddata, hheadchunks.1]
      rw [parse_records rest e hclean]
      rfl

def c5BadEstimation : IssueEstimation :=
  { issueNumber := 3, title := "t", complexity := "low", estimatedCost := 5
    reasoning := "r", labels := [], url := "https://e.com/a,b" }

/-- C5 counterexample: the claim is false on the code as stated — the `url` field is emitted raw,
so a url containing a comma is not wrapped in quotes — the produced CSV ends
in `...,r,https://e.com/a,b` and standard CSV parsing of that record yields 8
fields instead of 7. -/
theorem spec_c5_url_with_comma_not_escaped :
    convertEstimationsToCSV [c5BadEstimation]
      = "issue_number,title,complexity,estimated_cost,labels,reasoning,url\n"
        ++ "3,t,low,5,,r,https://e.com/a,b"
    ∧ ((csvParse (convertEstimationsToCSV [c5BadEstimation])).getD 1 []).length = 8 :=
  ⟨by decide, by decide⟩

def c5DemoEstimation : IssueEstimation :=
  { issueNumber := 42, title := "He said \"hi\", twice", complexity := "low"
    estimatedCost := 250, reasoning := "straightforward fix", labels := ["bug", "ui"]
    url := "https://github.com/acme/app/issues/42" }

theorem spec_c5_csv_header_escaping_roundtrip_witness :
    (∀ est ∈ [c5DemoEstimation],
      cleanField (toString est.issueNumber) = true ∧ cleanField est.complexity = true
        ∧ cleanField (jsNumToString est.estimatedCost) = true ∧ cleanField est.url = true)
    ∧ csvParse (convertEstimationsToCSV [c5DemoEstimation])
        = csvHeaderFields :: [c5DemoEstimation].map csvFieldsFor :=
  ⟨by decide, spec_c5_csv_header_escaping_roundtrip [c5DemoEstimation] (by decide)⟩
